import Mathlib

/-!
Shallow embedding of `parse.py` (BMRCL ridership normalization pipeline).

Conventions of the embedding:
* a spreadsheet cell is `Option ℚ`; `none` models a missing value (NaN),
  `some q` a numeric value (Excel numbers may be fractional);
* a row carries the values of its special columns plus a function from
  column label to cell, and a table carries its column-label list;
* strings are handled through their character lists, and the regular
  expression searches of the source are spelled out as character scans;
* a Python exception escaping a processing function is modelled by
  `Except Unit`; the per-file `try/except` of `main` maps a failed file
  to the empty contribution.
-/

namespace BMRCL

/-- A numeric spreadsheet cell; `none` models a missing (NaN) value. -/
abbrev Cell := Option ℚ

/-- Python `int()` on a rational: truncation toward zero. -/
def truncInt (q : ℚ) : Int := q.num.tdiv (q.den : Int)

/-- `int(ridership) if not pd.isna(ridership) else 0`, after the guard
`if pd.isna(ridership): ridership = 0` (parse.py lines 203-219). -/
def cellInt : Cell → Int
  | none => 0
  | some q => truncInt q

/-- Python `mapping.get(k, k)`: dictionary lookup with identity fallback. -/
def dictGet (m : List (String × String)) (k : String) : String :=
  match m.lookup k with
  | some v => v
  | none => k

/-- `station.split('-', 1)[1]`: everything after the first hyphen. -/
def afterFirstHyphen (s : String) : String :=
  String.mk ((s.data.dropWhile (fun c => c != '-')).drop 1)

/-- Station label canonicalization shared by the entry normalizers and the
v2 exit deriver (parse.py lines 207-213, 286-292, 457-463): take the part
after the first hyphen when the label contains one, then apply the old-name
mapping with identity fallback. -/
def canonName (old_name_mapping : List (String × String)) (station : String) : String :=
  dictGet old_name_mapping
    (if station.data.contains '-' then afterFirstHyphen station else station)

/-- Long-format station record: Date, Hour, Station, Ridership. -/
structure SRecord where
  date : String
  hour : Nat
  station : String
  ridership : Int
  deriving DecidableEq, Repr

/-- Long-format station pair record. -/
structure PRecord where
  date : String
  hour : Nat
  origin : String
  dest : String
  ridership : Int
  deriving DecidableEq, Repr

/-- One row of a wide station-hourly table.  `station = none` models a NaN
(or otherwise non-string) STATION cell. -/
structure HRow where
  businessDate : String
  station : Option String
  cell : String → Cell

/-- A wide station-hourly table: its column labels and its rows. -/
structure HTable where
  cols : List String
  rows : List HRow

/-- A named sheet of a v2 workbook. -/
structure Sheet where
  sheetName : String
  cols : List String
  rows : List HRow

/-- One row of the station-pair matrix; `none` cells model NaN. -/
structure PairRow where
  businessDateHour : Option String
  station : Option String
  cell : String → Cell

/-- The wide station-pair table. -/
structure PairTable where
  cols : List String
  rows : List PairRow

instance {α β : Type _} [DecidableEq α] [DecidableEq β] : DecidableEq (Except α β) := fun a b =>
  match a, b with
  | .ok x, .ok y =>
      if h : x = y then isTrue (by rw [h]) else isFalse (fun hc => h (Except.ok.inj hc))
  | .error x, .error y =>
      if h : x = y then isTrue (by rw [h]) else isFalse (fun hc => h (Except.error.inj hc))
  | .ok _, .error _ => isFalse (fun hc => Except.noConfusion hc)
  | .error _, .ok _ => isFalse (fun hc => Except.noConfusion hc)

/-- Substring containment on character lists (Python `sub in s`). -/
def containsSub (sub : List Char) : List Char → Bool
  | [] => sub.isEmpty
  | c :: rest => sub.isPrefixOf (c :: rest) || containsSub sub rest

/-- Numeric value of a decimal digit character. -/
def digitVal (c : Char) : Nat := c.toNat - '0'.toNat

/-- Python `int` on a run of decimal digits. -/
def digitsVal (l : List Char) : Nat := l.foldl (fun n c => 10 * n + digitVal c) 0

/-- `re.search` of the pattern two digits followed by `":00 Hrs"` against a
column label, scanning left to right (parse.py line 197); the value of the
captured digits is returned. -/
def searchHourV1 : List Char → Option Nat
  | c1 :: c2 :: rest =>
      if c1.isDigit && c2.isDigit && rest.take 7 == ":00 Hrs".data then
        some (10 * digitVal c1 + digitVal c2)
      else searchHourV1 (c2 :: rest)
  | _ => none

/-- Candidate hour columns of the v1 station-hourly format: every column
except BUSINESS DATE, STATION and TOTAL (parse.py line 184). -/
def hourColsV1 (cols : List String) : List String :=
  cols.filter (fun c => !(c == "BUSINESS DATE" || c == "STATION" || c == "TOTAL"))

/-- Concatenation of the outputs of a fallible per-item processor; the first
raised exception aborts the whole file, as in Python. -/
def exceptConcat (f : α → Except Unit (List β)) : List α → Except Unit (List β)
  | [] => .ok []
  | a :: as => do
      let x ← f a
      let xs ← exceptConcat f as
      .ok (x ++ xs)

/-- The loop body of parse.py lines 192-220 over the candidate hour columns
of one v1 row: columns whose label does not match the hour pattern are
skipped; once a matching column is found, a NaN STATION cell makes the
hyphen membership test `'-' in station` raise, which is `.error ()`. -/
def entryRowV1 (m : List (String × String)) (row : HRow) :
    List String → Except Unit (List SRecord)
  | [] => .ok []
  | c :: cs =>
      match searchHourV1 c.data with
      | none => entryRowV1 m row cs
      | some h =>
          match row.station with
          | none => .error ()
          | some st => do
              let rest ← entryRowV1 m row cs
              .ok ({ date := row.businessDate, hour := h,
                     station := canonName m st,
                     ridership := cellInt (row.cell c) } :: rest)

/-- parse.py lines 158-227: the v1 station entry normalizer. -/
def process_station_hourly_data_v1 (m : List (String × String)) (t : HTable) :
    Except Unit (List SRecord) :=
  exceptConcat (fun row => entryRowV1 m row (hourColsV1 t.cols)) t.rows

/-- parse.py line 268: `col.startswith('H') and col[1:].isdigit() and
len(col) == 3`. -/
def isHourColV2 (c : String) : Bool :=
  match c.data with
  | [h, a, b] => h == 'H' && a.isDigit && b.isDigit
  | _ => false

/-- The v2 hour columns of a sheet. -/
def hourColsV2 (cols : List String) : List String := cols.filter isHourColV2

/-- `int(hour_col[1:])` for a v2 hour column (parse.py line 280). -/
def hourOfColV2 (c : String) : Nat := digitsVal (c.data.drop 1)

/-- The loop body of parse.py lines 276-299 over the (pre-filtered) hour
columns of one v2 row; a NaN STATION cell raises at the hyphen test. -/
def entryRowV2 (m : List (String × String)) (row : HRow) :
    List String → Except Unit (List SRecord)
  | [] => .ok []
  | c :: cs =>
      match row.station with
      | none => .error ()
      | some st => do
          let rest ← entryRowV2 m row cs
          .ok ({ date := row.businessDate, hour := hourOfColV2 c,
                 station := canonName m st,
                 ridership := cellInt (row.cell c) } :: rest)

/-- Python `"Entry" in sheet` (parse.py line 256). -/
def isEntrySheet (sh : Sheet) : Bool := containsSub "Entry".data sh.sheetName.data

/-- Python `"Exit" in sheet` (parse.py line 438). -/
def isExitSheet (sh : Sheet) : Bool := containsSub "Exit".data sh.sheetName.data

/-- parse.py lines 230-306: the v2 station entry normalizer, over the
sheets whose name contains "Entry". -/
def process_station_hourly_data_v2 (m : List (String × String)) (wb : List Sheet) :
    Except Unit (List SRecord) :=
  exceptConcat
    (fun sh => exceptConcat (fun row => entryRowV2 m row (hourColsV2 sh.cols)) sh.rows)
    (wb.filter isEntrySheet)

/-- The label of hour h: the letter H followed by the two-digit decimal
form of h (parse.py line 467). -/
def hourColName (h : Nat) : String :=
  String.mk ['H', Char.ofNat ('0'.toNat + h / 10), Char.ofNat ('0'.toNat + h % 10)]

/-- One row of the v2 exit extraction (parse.py lines 453-484): the station
is canonicalized before the hour loop (so a NaN STATION raises
unconditionally), then all 24 hours are emitted, substituting 0 when the
hour column is absent from the hour columns of the sheet. -/
def exitRowV2 (m : List (String × String)) (hcols : List String) (row : HRow) :
    Except Unit (List SRecord) :=
  match row.station with
  | none => .error ()
  | some st =>
      .ok ((List.range 24).map (fun h =>
        { date := row.businessDate, hour := h, station := canonName m st,
          ridership :=
            if hcols.contains (hourColName h) then cellInt (row.cell (hourColName h))
            else 0 }))

/-- parse.py lines 411-491: the v2 (direct extraction) exit deriver, over
the sheets whose name contains "Exit". -/
def process_station_hourly_exits_v2 (m : List (String × String)) (wb : List Sheet) :
    Except Unit (List SRecord) :=
  exceptConcat
    (fun sh => exceptConcat (exitRowV2 m (hourColsV2 sh.cols)) sh.rows)
    (wb.filter isExitSheet)

/-- The `re.match` of the date pattern, four digits, hyphen, two digits,
hyphen, two digits, anchored at the
start of the string; the captured text is returned (parse.py line 358). -/
def matchDate : List Char → Option String
  | a :: b :: c :: d :: '-' :: e :: f :: '-' :: g :: k :: _ =>
      if a.isDigit && b.isDigit && c.isDigit && d.isDigit && e.isDigit &&
          f.isDigit && g.isDigit && k.isDigit then
        some (String.mk [a, b, c, d, '-', e, f, '-', g, k])
      else none
  | _ => none

/-- One attempt of the pattern digits `"Hrs-"` digits `"hrs"` at the head of
a character list, returning the value of the first digit group. -/
def hrsAt (l : List Char) : Option Nat :=
  let d1 := l.takeWhile Char.isDigit
  if d1.isEmpty then none
  else
    let l1 := l.drop d1.length
    if "Hrs-".data.isPrefixOf l1 then
      let l2 := l1.drop 4
      let d2 := l2.takeWhile Char.isDigit
      if d2.isEmpty then none
      else if "hrs".data.isPrefixOf (l2.drop d2.length) then some (digitsVal d1)
      else none
    else none

/-- The `re.search` of the pattern digits `"Hrs-"` digits `"hrs"`: leftmost
match, value of the first
group (parse.py line 364). -/
def searchHrs : List Char → Option Nat
  | [] => none
  | c :: rest =>
      match hrsAt (c :: rest) with
      | some h => some h
      | none => searchHrs rest

/-- Date and hour extraction from the composite BUSINESS DATE cell
(parse.py lines 353-370): both patterns must match. -/
def parseDateHour (s : String) : Option (String × Nat) :=
  match matchDate s.data with
  | none => none
  | some d =>
      match searchHrs s.data with
      | none => none
      | some h => some (d, h)

/-- Destination station columns: all columns except BUSINESS DATE and
STATION (parse.py lines 338, 514). -/
def stationColsPair (cols : List String) : List String :=
  cols.filter (fun c => !(c == "BUSINESS DATE" || c == "STATION"))

/-- Row gate shared by the pair normalizer and the v1 exit deriver
(parse.py lines 341-370 and 517-546): rows with a NaN origin station or a
NaN or unparseable composite date-hour cell are skipped. -/
def pairRowGate (row : PairRow) : Option (String × Nat × String) :=
  match row.station with
  | none => none
  | some origin =>
      match row.businessDateHour with
      | none => none
      | some s =>
          match parseDateHour s with
          | none => none
          | some (d, h) => some (d, h, origin)

/-- Records produced from one gated pair row (parse.py lines 548-566):
empty and zero cells are skipped, and both names go through the station
code mapping with identity fallback. -/
def pairRowRecs (m : List (String × String)) (scols : List String)
    (d : String) (h : Nat) (origin : String) (row : PairRow) : List PRecord :=
  scols.filterMap (fun c =>
    match row.cell c with
    | none => none
    | some q =>
        if q = 0 then none
        else some { date := d, hour := h, origin := dictGet m origin,
                    dest := dictGet m c, ridership := truncInt q })

/-- The unsorted output list of the pair normalizer. -/
def pairRecsOf (m : List (String × String)) (t : PairTable) : List PRecord :=
  t.rows.flatMap (fun row =>
    match pairRowGate row with
    | none => []
    | some (d, h, origin) => pairRowRecs m (stationColsPair t.cols) d h origin row)

/-- Sort key of pair records: (Date, Hour, Origin Station, Destination
Station) (parse.py line 572). -/
def pKey (r : PRecord) : String ×ₗ Nat ×ₗ String ×ₗ String :=
  toLex (r.date, toLex (r.hour, toLex (r.origin, r.dest)))

/-- Boolean comparison used to model the ascending stable sort. -/
def pLE (a b : PRecord) : Bool := decide (pKey a ≤ pKey b)

/-- parse.py lines 494-581: the station pair normalizer (loop plus the
final `sort_values`). -/
def process_stationpair_hourly_data (m : List (String × String)) (t : PairTable) :
    List PRecord :=
  (pairRecsOf m t).mergeSort pLE

/-- Key of the exit accumulator: `(date, hour, station)`. -/
abbrev ExitKey := String × Nat × String

/-- Pointwise update of the accumulator; the Python dictionary with its
`get(key, 0)` default is modelled as a total function that is 0 outside
the written keys. -/
def updateFn (f : ExitKey → Int) (k : ExitKey) (v : Int) : ExitKey → Int :=
  fun k2 => if k2 = k then v else f k2

/-- Accumulation of one gated pair row into `exit_data` (parse.py lines
372-388): every destination column with a non-empty nonzero cell adds its
truncated value at `(date, hour, mapped destination)`. -/
def exitRowData (m : List (String × String)) (scols : List String)
    (d : String) (h : Nat) (row : PairRow) (f : ExitKey → Int) : ExitKey → Int :=
  scols.foldl (fun g c =>
    match row.cell c with
    | none => g
    | some q =>
        if q = 0 then g
        else updateFn g (d, h, dictGet m c) (g (d, h, dictGet m c) + truncInt q)) f

/-- One row step of the `exit_data` accumulation. -/
def exitRowStep (m : List (String × String)) (scols : List String)
    (f : ExitKey → Int) (row : PairRow) : ExitKey → Int :=
  match pairRowGate row with
  | none => f
  | some (d, h, _) => exitRowData m scols d h row f

/-- `exit_data` after all rows (parse.py lines 334-388). -/
def exitDataOf (m : List (String × String)) (scols : List String)
    (rows : List PairRow) : ExitKey → Int :=
  rows.foldl (exitRowStep m scols) (fun _ => 0)

/-- Python `set.add`, modelled as append-if-absent; the iteration order of
the Python set is thereby fixed to first-insertion order. -/
def setAdd (l : List (String × String)) (x : String × String) :
    List (String × String) :=
  if x ∈ l then l else l ++ [x]

/-- One row step of the `date_station_combinations` tracking (parse.py
lines 379-380): every destination column of a gated row is recorded with
the row date, regardless of the cell value. -/
def comboRowStep (m : List (String × String)) (scols : List String)
    (l : List (String × String)) (row : PairRow) : List (String × String) :=
  match pairRowGate row with
  | none => l
  | some (d, _, _) => scols.foldl (fun l2 c => setAdd l2 (d, dictGet m c)) l

/-- `date_station_combinations` after all rows. -/
def combosOf (m : List (String × String)) (scols : List String)
    (rows : List PairRow) : List (String × String) :=
  rows.foldl (comboRowStep m scols) []

/-- The 24 records emitted for one tracked (date, station) combination
(parse.py lines 392-401), reading the accumulated total with default 0. -/
def exitBlockV1 (m : List (String × String)) (t : PairTable)
    (ds : String × String) : List SRecord :=
  (List.range 24).map (fun h =>
    { date := ds.1, hour := h, station := ds.2,
      ridership := exitDataOf m (stationColsPair t.cols) t.rows (ds.1, h, ds.2) })

/-- parse.py lines 309-408: the v1 (aggregation) exit deriver.  For every
tracked (date, station) combination all 24 hours are emitted, reading the
accumulated total (0 when the key was never written). -/
def process_station_hourly_exits_v1 (m : List (String × String)) (t : PairTable) :
    List SRecord :=
  (combosOf m (stationColsPair t.cols) t.rows).flatMap (exitBlockV1 m t)

/-- Sort key of entry and exit records: (Date, Station, Hour)
(parse.py lines 146, 643, 702). -/
def sKey (r : SRecord) : String ×ₗ String ×ₗ Nat :=
  toLex (r.date, toLex (r.station, r.hour))

/-- Boolean comparison used to model the ascending stable sort. -/
def sLE (a b : SRecord) : Bool := decide (sKey a ≤ sKey b)

/-- The combiner for entry and for exit records (parse.py lines 638-647 and
697-706): concatenate the per-period outputs and sort by (Date, Station,
Hour). -/
def combineStationRecs (parts : List (List SRecord)) : List SRecord :=
  parts.flatten.mergeSort sLE

/-- The combiner for pair records: concatenate and sort by (Date, Hour,
Origin Station, Destination Station). -/
def combinePairRecs (parts : List (List PRecord)) : List PRecord :=
  parts.flatten.mergeSort pLE

/-- The two raw schema revisions. -/
inductive FormatVersion
  | V1
  | V2
  deriving DecidableEq, Repr

/-- parse.py lines 614-627: the format detector over the header labels of
the first sheet; any H-pattern column selects v2, otherwise v1. -/
def detectFormat (cols : List String) : FormatVersion :=
  if cols.any isHourColV2 then .V2 else .V1

/-- main catches exceptions per file and omits a failed file from the
combine step (parse.py lines 608-635): the contribution of a failed file
is empty. -/
def fileContrib : Except Unit (List SRecord) → List SRecord
  | .error _ => []
  | .ok l => l

/-! ### Specification-side definitions used to state the claims -/

/-- The value a destination cell of a gated row contributes to the exit
total: nothing for an empty or zero cell, its truncation otherwise. -/
def colVal (row : PairRow) (c : String) : Int :=
  match row.cell c with
  | none => 0
  | some q => if q = 0 then 0 else truncInt q

/-- Contribution of one pair row to the exit total of `(d, h, s)`. -/
def rowContrib (m : List (String × String)) (scols : List String)
    (d : String) (h : Nat) (s : String) (row : PairRow) : Int :=
  match pairRowGate row with
  | none => 0
  | some (d2, h2, _) =>
      if d2 = d ∧ h2 = h then
        ((scols.filter (fun c => dictGet m c == s)).map (colVal row)).sum
      else 0

/-- The sum, over all successfully gated rows with date `d` and hour `h`,
of the truncated nonzero cell values of the columns mapping to `s`. -/
def rowSumV1 (m : List (String × String)) (scols : List String)
    (rows : List PairRow) (d : String) (h : Nat) (s : String) : Int :=
  (rows.map (rowContrib m scols d h s)).sum

/-- The raw rational value of a destination cell (0 when missing). -/
def colValQ (row : PairRow) (c : String) : ℚ :=
  match row.cell c with
  | none => 0
  | some q => q

/-- Stated from the words of the claim: the contribution of one row as the sum
of the raw (untruncated) cell values of the columns mapping to `s`. -/
def rowContribQ (m : List (String × String)) (scols : List String)
    (d : String) (h : Nat) (s : String) (row : PairRow) : ℚ :=
  match pairRowGate row with
  | none => 0
  | some (d2, h2, _) =>
      if d2 = d ∧ h2 = h then
        ((scols.filter (fun c => dictGet m c == s)).map (colValQ row)).sum
      else 0

/-- Stated from the words of the claim: the sum over all successfully gated rows
of the raw nonzero cell values of the destination columns mapping to `s`
for date `d` and hour `h`. -/
def rowSumQ (m : List (String × String)) (scols : List String)
    (rows : List PairRow) (d : String) (h : Nat) (s : String) : ℚ :=
  (rows.map (rowContribQ m scols d h s)).sum

/-- A (date, station) pair is observed in the pair source when some row
passes the gate with that date and some destination column maps to that
station. -/
def observedV1 (m : List (String × String)) (t : PairTable) (d s : String) : Prop :=
  ∃ row ∈ t.rows, (pairRowGate row).map (fun x => x.1) = some d ∧
    ∃ c ∈ stationColsPair t.cols, dictGet m c = s

instance (m : List (String × String)) (t : PairTable) (d s : String) :
    Decidable (observedV1 m t d s) := by
  unfold observedV1
  exact inferInstance

/-- A v2 sheet row carries the (date, station) pair `(d, s)`. -/
def exitRowMatches (m : List (String × String)) (d s : String) (row : HRow) : Bool :=
  match row.station with
  | none => false
  | some st => row.businessDate == d && canonName m st == s

/-- Number of rows of the Exit sheets carrying the pair `(d, s)`. -/
def exitRowCountV2 (m : List (String × String)) (wb : List Sheet) (d s : String) : Nat :=
  ((wb.filter isExitSheet).map (fun sh => sh.rows.countP (exitRowMatches m d s))).sum

/-- The header pattern as worded in the claim: the letter H followed by exactly two
decimal digits. -/
def specHPat (c : String) : Prop :=
  ∃ a b : Char, a.isDigit = true ∧ b.isDigit = true ∧ c.data = ['H', a, b]

/-- Ascending lexicographic order on (Date, Station, Hour). -/
def sKeyLEP (a b : SRecord) : Prop :=
  a.date < b.date ∨ (a.date = b.date ∧
    (a.station < b.station ∨ (a.station = b.station ∧ a.hour ≤ b.hour)))

/-- Ascending lexicographic order on (Date, Hour, Origin, Destination). -/
def pKeyLEP (a b : PRecord) : Prop :=
  a.date < b.date ∨ (a.date = b.date ∧
    (a.hour < b.hour ∨ (a.hour = b.hour ∧
      (a.origin < b.origin ∨ (a.origin = b.origin ∧ a.dest ≤ b.dest)))))

/-! ### Concrete inputs used by witnesses and counterexamples -/

/-- One half, a fractional cell value. -/
def qHalf : ℚ := ⟨1, 2, by decide, by decide⟩

/-- Five halves, a fractional cell value. -/
def qFiveHalves : ℚ := ⟨5, 2, by decide, by decide⟩

/-- The station code mapping of spec scenario 3. -/
def mapMJBN : List (String × String) :=
  [("MJ", "Majestic"), ("BN", "Baiyappanahalli")]

/-- Pair row: 2025-08-01 hour 8, origin MJ, destination column BN = 12. -/
def rowAgg12 : PairRow :=
  { businessDateHour := some "2025-08-01 08Hrs-09hrs", station := some "MJ",
    cell := fun c => if c = "BN" then some 12 else none }

/-- Pair row: 2025-08-01 hour 8, origin XX, destination column BN = 5. -/
def rowAgg5 : PairRow :=
  { businessDateHour := some "2025-08-01 08Hrs-09hrs", station := some "XX",
    cell := fun c => if c = "BN" then some 5 else none }

/-- Spec scenario 4: two origins contributing 12 and 5 to destination BN. -/
def tblAgg : PairTable :=
  { cols := ["BUSINESS DATE", "STATION", "BN"], rows := [rowAgg12, rowAgg5] }

/-- Pair row whose BN cell is the fraction 5/2. -/
def rowAggFrac : PairRow :=
  { businessDateHour := some "2025-08-01 08Hrs-09hrs", station := some "MJ",
    cell := fun c => if c = "BN" then some qFiveHalves else none }

/-- Pair table with a single fractional destination cell. -/
def tblAggFrac : PairTable :=
  { cols := ["BUSINESS DATE", "STATION", "BN"], rows := [rowAggFrac] }

/-- Pair table whose destination column label contains a hyphen. -/
def tblHyphenDest : PairTable :=
  { cols := ["BUSINESS DATE", "STATION", "A-B"],
    rows := [{ businessDateHour := some "2025-08-01 08Hrs-09hrs",
               station := some "MJ",
               cell := fun c => if c = "A-B" then some 5 else none }] }

/-- Pair table with a single cell holding one half. -/
def tblHalfPair : PairTable :=
  { cols := ["BUSINESS DATE", "STATION", "BN"],
    rows := [{ businessDateHour := some "2025-08-01 08Hrs-09hrs",
               station := some "MJ",
               cell := fun c => if c = "BN" then some qHalf else none }] }

/-- Pair table whose composite label parses to the out-of-range hour 25. -/
def tblHr25 : PairTable :=
  { cols := ["BUSINESS DATE", "STATION", "BN"],
    rows := [{ businessDateHour := some "2025-08-01 25Hrs-26hrs",
               station := some "MJ",
               cell := fun c => if c = "BN" then some 12 else none }] }

/-- A v1 entry table with a single negative ridership cell. -/
def tblNegEntry : HTable :=
  { cols := ["BUSINESS DATE", "STATION", "00:00 Hrs To 01:00 Hrs"],
    rows := [{ businessDate := "2025-08-01", station := some "X",
               cell := fun c => if c = "00:00 Hrs To 01:00 Hrs" then some (-5) else none }] }

/-- Spec scenario 1: label "BLUE-Majestic", empty first-hour cell. -/
def tblBlueMajestic : HTable :=
  { cols := ["BUSINESS DATE", "STATION", "00:00 Hrs To 01:00 Hrs"],
    rows := [{ businessDate := "2025-08-01", station := some "BLUE-Majestic",
               cell := fun _ => none }] }

/-- A v1 entry table with a NaN STATION row but no hour-pattern column. -/
def tblNoHourCols : HTable :=
  { cols := ["BUSINESS DATE", "STATION"],
    rows := [{ businessDate := "2025-08-01", station := none, cell := fun _ => none }] }

/-- A station-hourly row whose STATION cell is NaN. -/
def rowNaN : HRow :=
  { businessDate := "2025-08-01", station := none, cell := fun _ => none }

/-- A v1 entry table with a NaN STATION row and an hour-pattern column. -/
def tblNaNStation : HTable :=
  { cols := ["BUSINESS DATE", "STATION", "00:00 Hrs To 01:00 Hrs"],
    rows := [rowNaN] }

/-- A pair-matrix row whose STATION cell is NaN. -/
def rowPairNaN : PairRow :=
  { businessDateHour := none, station := none, cell := fun _ => none }

/-- An Exit-sheet row for station X on 2025-09-01 with H08 = 3. -/
def rowExitX : HRow :=
  { businessDate := "2025-09-01", station := some "X",
    cell := fun c => if c = "H08" then some 3 else none }

/-- A v2 workbook whose Exit sheet lists the same station-date row twice. -/
def wbDupExit : List Sheet :=
  [{ sheetName := "Sep-2025 Exit", cols := ["BUSINESS DATE", "STATION", "H08"],
     rows := [rowExitX, rowExitX] }]

/-- A v2 workbook whose Exit sheet holds one hyphenated, remappable label. -/
def wbExitOld : List Sheet :=
  [{ sheetName := "Sep-2025 Exit", cols := ["BUSINESS DATE", "STATION", "H00"],
     rows := [{ businessDate := "2025-09-01", station := some "PURPLE-Old",
                cell := fun c => if c = "H00" then some 7 else none }] }]

/-- Old-name mapping sending "Old" to "New". -/
def mapOldNew : List (String × String) := [("Old", "New")]

/-- An Exit sheet containing a NaN STATION row. -/
def shExitNaN : Sheet :=
  { sheetName := "Sep-2025 Exit", cols := ["BUSINESS DATE", "STATION"],
    rows := [rowNaN] }

/-- A v2 workbook whose Exit sheet contains a NaN STATION row. -/
def wbExitNaN : List Sheet := [shExitNaN]

/-- An Entry sheet containing a NaN STATION row and an hour column. -/
def shEntryNaN : Sheet :=
  { sheetName := "Sep-2025 Entry", cols := ["BUSINESS DATE", "STATION", "H05"],
    rows := [rowNaN] }

/-- A v2 workbook whose Entry sheet contains a NaN STATION row and an hour
column. -/
def wbEntryNaN : List Sheet := [shEntryNaN]

/-- Whether a cell is present and nonzero. -/
def nonzeroCellB : Cell → Bool
  | none => false
  | some q => decide (q ≠ 0)

/-- The number of present nonzero destination cells over the gated rows. -/
def nonzeroCountOf (t : PairTable) : Nat :=
  (t.rows.map (fun row =>
    match pairRowGate row with
    | none => 0
    | some _ => (stationColsPair t.cols).countP (fun c => nonzeroCellB (row.cell c)))).sum

/-! ### Helper lemmas -/

theorem truncInt_nonneg {q : ℚ} (hq : 0 ≤ q) : 0 ≤ truncInt q :=
  Int.tdiv_nonneg (Rat.num_nonneg.mpr hq) (Int.ofNat_nonneg q.den)

theorem truncInt_intCast {q : ℚ} (hq : q.den = 1) : truncInt q = q.num := by
  unfold truncInt
  rw [hq]
  exact Int.tdiv_one q.num

theorem exceptConcat_ok_cons {α β : Type _} {f : α → Except Unit (List β)} {a : α}
    {as : List α} {l : List β} :
    exceptConcat f (a :: as) = .ok l ↔
      ∃ x xs, f a = .ok x ∧ exceptConcat f as = .ok xs ∧ l = x ++ xs := by
  rcases hfa : f a with e | x
  · constructor
    · intro hc
      rw [exceptConcat, hfa] at hc
      exact absurd hc (by simp [Bind.bind, Except.bind])
    · rintro ⟨x, xs, hx, -, -⟩
      exact absurd hx (by simp)
  · rcases hrest : exceptConcat f as with e | xs
    · constructor
      · intro hc
        rw [exceptConcat, hfa, hrest] at hc
        exact absurd hc (by simp [Bind.bind, Except.bind])
      · rintro ⟨x2, xs2, -, hxs, -⟩
        exact absurd hxs (by simp)
    · rw [exceptConcat, hfa, hrest]
      constructor
      · intro hc
        refine ⟨x, xs, rfl, rfl, ?_⟩
        simpa [Bind.bind, Except.bind] using hc.symm
      · rintro ⟨x2, xs2, hx2, hxs2, rfl⟩
        obtain rfl : x = x2 := Except.ok.inj hx2
        obtain rfl : xs = xs2 := Except.ok.inj hxs2
        simp [Bind.bind, Except.bind]

theorem exceptConcat_error_of_mem {α β : Type _} {f : α → Except Unit (List β)}
    {a : α} {as : List α} (h : a ∈ as) (he : f a = .error ()) :
    exceptConcat f as = .error () := by
  induction as with
  | nil => cases h
  | cons b bs ih =>
      rcases List.mem_cons.mp h with rfl | hmem
      · rw [exceptConcat, he]
        rfl
      · rcases hfb : f b with e | x
        · rw [exceptConcat, hfb]
          cases e
          rfl
        · rw [exceptConcat, hfb]
          show Except.bind (exceptConcat f bs) _ = _
          rw [ih hmem]
          rfl

theorem exceptConcat_mem {α β : Type _} {f : α → Except Unit (List β)} :
    ∀ {as : List α} {l : List β}, exceptConcat f as = .ok l → ∀ {r : β}, r ∈ l →
      ∃ a ∈ as, ∃ x, f a = .ok x ∧ r ∈ x := by
  intro as
  induction as with
  | nil =>
      intro l hl r hr
      obtain rfl : ([] : List β) = l := Except.ok.inj hl
      cases hr
  | cons b bs ih =>
      intro l hl r hr
      obtain ⟨x, xs, hx, hxs, rfl⟩ := exceptConcat_ok_cons.mp hl
      rcases List.mem_append.mp hr with hr1 | hr2
      · exact ⟨b, List.mem_cons_self b bs, x, hx, hr1⟩
      · obtain ⟨a, ha, y, hy, hry⟩ := ih hxs hr2
        exact ⟨a, List.mem_cons_of_mem b ha, y, hy, hry⟩

theorem exceptConcat_filter_length {α β : Type _} {f : α → Except Unit (List β)}
    {p : β → Bool} {g : α → Nat}
    (H : ∀ a x, f a = .ok x → (x.filter p).length = g a) :
    ∀ {as : List α} {l : List β}, exceptConcat f as = .ok l →
      (l.filter p).length = (as.map g).sum := by
  intro as
  induction as with
  | nil =>
      intro l hl
      obtain rfl : ([] : List β) = l := Except.ok.inj hl
      simp
  | cons b bs ih =>
      intro l hl
      obtain ⟨x, xs, hx, hxs, rfl⟩ := exceptConcat_ok_cons.mp hl
      simp [List.filter_append, H b x hx, ih hxs]

theorem setAdd_mem {l : List (String × String)} {x y : String × String} :
    x ∈ setAdd l y ↔ x ∈ l ∨ x = y := by
  unfold setAdd
  by_cases h : y ∈ l
  · rw [if_pos h]
    constructor
    · exact fun hx => Or.inl hx
    · rintro (hx | rfl)
      · exact hx
      · exact h
  · rw [if_neg h]
    simp

theorem setAdd_nodup {l : List (String × String)} {y : String × String}
    (h : l.Nodup) : (setAdd l y).Nodup := by
  unfold setAdd
  by_cases hy : y ∈ l
  · rwa [if_pos hy]
  · rw [if_neg hy]
    simp [List.nodup_append, h, hy]

theorem foldl_setAdd_mem (key : String → String × String) :
    ∀ (g : List String) (l : List (String × String)) (x : String × String),
      (x ∈ g.foldl (fun l2 c => setAdd l2 (key c)) l ↔
        x ∈ l ∨ ∃ c ∈ g, x = key c) := by
  intro g
  induction g with
  | nil => simp
  | cons c cs ih =>
      intro l x
      rw [List.foldl_cons, ih, setAdd_mem]
      simp only [List.mem_cons]
      constructor
      · rintro ((hx | rfl) | ⟨c2, hc2, rfl⟩)
        · exact Or.inl hx
        · exact Or.inr ⟨c, Or.inl rfl, rfl⟩
        · exact Or.inr ⟨c2, Or.inr hc2, rfl⟩
      · rintro (hx | ⟨c2, (rfl | hc2), rfl⟩)
        · exact Or.inl (Or.inl hx)
        · exact Or.inl (Or.inr rfl)
        · exact Or.inr ⟨c2, hc2, rfl⟩

theorem foldl_setAdd_nodup (key : String → String × String) :
    ∀ (g : List String) (l : List (String × String)), l.Nodup →
      (g.foldl (fun l2 c => setAdd l2 (key c)) l).Nodup := by
  intro g
  induction g with
  | nil => exact fun l h => h
  | cons c cs ih =>
      intro l h
      rw [List.foldl_cons]
      exact ih _ (setAdd_nodup h)

theorem comboRowStep_mem {m : List (String × String)} {scols : List String}
    {l : List (String × String)} {row : PairRow} {x : String × String} :
    x ∈ comboRowStep m scols l row ↔
      x ∈ l ∨ ∃ d2 h2 o, pairRowGate row = some (d2, h2, o) ∧
        ∃ c ∈ scols, x = (d2, dictGet m c) := by
  unfold comboRowStep
  rcases hg : pairRowGate row with - | ⟨d2, h2, o⟩
  · simp
  · rw [foldl_setAdd_mem]
    simp

theorem comboRowStep_nodup {m : List (String × String)} {scols : List String}
    {l : List (String × String)} {row : PairRow} (h : l.Nodup) :
    (comboRowStep m scols l row).Nodup := by
  unfold comboRowStep
  rcases pairRowGate row with - | ⟨d2, h2, o⟩
  · exact h
  · exact foldl_setAdd_nodup _ _ _ h

theorem foldl_comboRowStep_mem {m : List (String × String)} {scols : List String} :
    ∀ (rows : List PairRow) (l : List (String × String)) (x : String × String),
      (x ∈ rows.foldl (comboRowStep m scols) l ↔
        x ∈ l ∨ ∃ row ∈ rows, ∃ d2 h2 o, pairRowGate row = some (d2, h2, o) ∧
          ∃ c ∈ scols, x = (d2, dictGet m c)) := by
  intro rows
  induction rows with
  | nil => simp
  | cons r rs ih =>
      intro l x
      rw [List.foldl_cons, ih, comboRowStep_mem]
      simp only [List.mem_cons]
      constructor
      · rintro ((hx | hrow) | ⟨row, hrow, hrest⟩)
        · exact Or.inl hx
        · exact Or.inr ⟨r, Or.inl rfl, hrow⟩
        · exact Or.inr ⟨row, Or.inr hrow, hrest⟩
      · rintro (hx | ⟨row, (rfl | hrow), hrest⟩)
        · exact Or.inl (Or.inl hx)
        · exact Or.inl (Or.inr hrest)
        · exact Or.inr ⟨row, hrow, hrest⟩

theorem combosOf_mem {m : List (String × String)} {scols : List String}
    {rows : List PairRow} {x : String × String} :
    x ∈ combosOf m scols rows ↔
      ∃ row ∈ rows, ∃ d2 h2 o, pairRowGate row = some (d2, h2, o) ∧
        ∃ c ∈ scols, x = (d2, dictGet m c) := by
  unfold combosOf
  rw [foldl_comboRowStep_mem]
  simp

theorem combosOf_nodup {m : List (String × String)} {scols : List String}
    {rows : List PairRow} : (combosOf m scols rows).Nodup := by
  unfold combosOf
  generalize hl : ([] : List (String × String)) = l
  have hnd : l.Nodup := by rw [← hl]; exact List.nodup_nil
  clear hl
  induction rows generalizing l with
  | nil => exact hnd
  | cons r rs ih => exact ih _ (comboRowStep_nodup hnd)

theorem exitRowData_apply (m : List (String × String)) (d : String) (h : Nat)
    (row : PairRow) (d0 : String) (h0 : Nat) (s : String) :
    ∀ (scols : List String) (f : ExitKey → Int),
      exitRowData m scols d h row f (d0, h0, s) =
        f (d0, h0, s) +
          (if d = d0 ∧ h = h0 then
            ((scols.filter (fun c => dictGet m c == s)).map (colVal row)).sum
          else 0) := by
  intro scols
  induction scols with
  | nil =>
      intro f
      simp [exitRowData]
  | cons c cs ih =>
      intro f
      rw [exitRowData, List.foldl_cons,
        show (List.foldl _ _ cs : ExitKey → Int) = exitRowData m cs d h row _ from rfl]
      split
      next hcell =>
        rw [ih]
        by_cases hp : dictGet m c == s <;>
          simp [List.filter_cons, hp, colVal, hcell]
      next q hcell =>
        split
        next hq =>
          subst hq
          rw [ih]
          by_cases hp : dictGet m c == s <;>
            simp [List.filter_cons, hp, colVal, hcell]
        next hq =>
          rw [ih]
          by_cases hdh : d = d0 ∧ h = h0
          · obtain ⟨rfl, rfl⟩ := hdh
            by_cases hs : dictGet m c = s
            · subst hs
              rw [updateFn]
              simp only [if_pos rfl]
              simp [List.filter_cons, colVal, hcell, hq]
              omega
            · rw [updateFn]
              rw [if_neg (by simp [Ne.symm hs])]
              simp [List.filter_cons, beq_iff_eq, hs]
          · have hne : (d0, h0, s) ≠ (d, h, dictGet m c) := by
              intro hcon
              injection hcon with hd hrest
              injection hrest with hh hs2
              exact hdh ⟨hd.symm, hh.symm⟩
            rw [updateFn, if_neg hne]
            simp [hdh]

theorem exitRowStep_apply (m : List (String × String)) (scols : List String)
    (f : ExitKey → Int) (row : PairRow) (d0 : String) (h0 : Nat) (s : String) :
    exitRowStep m scols f row (d0, h0, s) =
      f (d0, h0, s) + rowContrib m scols d0 h0 s row := by
  unfold exitRowStep rowContrib
  rcases hg : pairRowGate row with - | ⟨d2, h2, o⟩
  · show f (d0, h0, s) = f (d0, h0, s) + 0
    simp
  · show exitRowData m scols d2 h2 row f (d0, h0, s) =
      f (d0, h0, s) + (if d2 = d0 ∧ h2 = h0 then
        ((scols.filter (fun c => dictGet m c == s)).map (colVal row)).sum else 0)
    rw [exitRowData_apply]

theorem foldl_exitRowStep_apply (m : List (String × String)) (scols : List String)
    (d0 : String) (h0 : Nat) (s : String) :
    ∀ (rows : List PairRow) (f : ExitKey → Int),
      (rows.foldl (exitRowStep m scols) f) (d0, h0, s) =
        f (d0, h0, s) + (rows.map (rowContrib m scols d0 h0 s)).sum := by
  intro rows
  induction rows with
  | nil => intro f; simp
  | cons r rs ih =>
      intro f
      rw [List.foldl_cons, ih, exitRowStep_apply]
      simp [add_assoc]

theorem exitDataOf_eq_rowSumV1 (m : List (String × String)) (scols : List String)
    (rows : List PairRow) (d0 : String) (h0 : Nat) (s : String) :
    exitDataOf m scols rows (d0, h0, s) = rowSumV1 m scols rows d0 h0 s := by
  unfold exitDataOf rowSumV1
  rw [foldl_exitRowStep_apply]
  simp

theorem rowSumV1_perm (m : List (String × String)) (scols : List String)
    {rows rows2 : List PairRow} (hp : rows.Perm rows2)
    (d0 : String) (h0 : Nat) (s : String) :
    rowSumV1 m scols rows d0 h0 s = rowSumV1 m scols rows2 d0 h0 s :=
  (hp.map (rowContrib m scols d0 h0 s)).sum_eq

theorem entryRowV1_mem {m : List (String × String)} {row : HRow} :
    ∀ {hcols : List String} {x : List SRecord}, entryRowV1 m row hcols = .ok x →
      ∀ {r : SRecord}, r ∈ x → ∃ c ∈ hcols, r.ridership = cellInt (row.cell c) := by
  intro hcols
  induction hcols with
  | nil =>
      intro x hx r hr
      obtain rfl : ([] : List SRecord) = x := Except.ok.inj hx
      cases hr
  | cons c cs ih =>
      intro x hx r hr
      rw [entryRowV1] at hx
      rcases hsearch : searchHourV1 c.data with - | h
      · rw [hsearch] at hx
        obtain ⟨c2, hc2, hrc⟩ := ih hx hr
        exact ⟨c2, List.mem_cons_of_mem c hc2, hrc⟩
      · rw [hsearch] at hx
        rcases hst : row.station with - | st
        · rw [hst] at hx
          exact absurd hx (by simp)
        · rw [hst] at hx
          rcases hrest : entryRowV1 m row cs with e | rest
          · rw [hrest] at hx
            exact absurd hx (by simp [Bind.bind, Except.bind])
          · rw [hrest] at hx
            simp only [Bind.bind, Except.bind, Except.ok.injEq] at hx
            subst hx
            rcases List.mem_cons.mp hr with rfl | hr2
            · exact ⟨c, List.mem_cons_self c cs, rfl⟩
            · obtain ⟨c2, hc2, hrc⟩ := ih hrest hr2
              exact ⟨c2, List.mem_cons_of_mem c hc2, hrc⟩

theorem entryRowV2_mem {m : List (String × String)} {row : HRow} :
    ∀ {hcols : List String} {x : List SRecord}, entryRowV2 m row hcols = .ok x →
      ∀ {r : SRecord}, r ∈ x → ∃ c ∈ hcols, r.ridership = cellInt (row.cell c) := by
  intro hcols
  induction hcols with
  | nil =>
      intro x hx r hr
      obtain rfl : ([] : List SRecord) = x := Except.ok.inj hx
      cases hr
  | cons c cs ih =>
      intro x hx r hr
      rw [entryRowV2] at hx
      rcases hst : row.station with - | st
      · rw [hst] at hx
        exact absurd hx (by simp)
      · rw [hst] at hx
        rcases hrest : entryRowV2 m row cs with e | rest
        · rw [hrest] at hx
          exact absurd hx (by simp [Bind.bind, Except.bind])
        · rw [hrest] at hx
          simp only [Bind.bind, Except.bind, Except.ok.injEq] at hx
          subst hx
          rcases List.mem_cons.mp hr with rfl | hr2
          · exact ⟨c, List.mem_cons_self c cs, rfl⟩
          · obtain ⟨c2, hc2, hrc⟩ := ih hrest hr2
            exact ⟨c2, List.mem_cons_of_mem c hc2, hrc⟩

theorem entryRowV1_error {m : List (String × String)} {row : HRow}
    (hst : row.station = none) :
    ∀ {hcols : List String}, (∃ c ∈ hcols, (searchHourV1 c.data).isSome) →
      entryRowV1 m row hcols = .error () := by
  intro hcols
  induction hcols with
  | nil => rintro ⟨c, hc, -⟩; cases hc
  | cons c cs ih =>
      rintro ⟨c2, hc2, hsome⟩
      rw [entryRowV1]
      rcases hsearch : searchHourV1 c.data with - | h
      · rcases List.mem_cons.mp hc2 with rfl | hmem
        · rw [hsearch] at hsome; cases hsome
        · exact ih ⟨c2, hmem, hsome⟩
      · rw [hst]

theorem entryRowV2_error {m : List (String × String)} {row : HRow}
    (hst : row.station = none) {hcols : List String} (hne : hcols ≠ []) :
    entryRowV2 m row hcols = .error () := by
  rcases hcols with - | ⟨c, cs⟩
  · exact absurd rfl hne
  · rw [entryRowV2, hst]

theorem exitRowV2_error {m : List (String × String)} {hcols : List String}
    {row : HRow} (hst : row.station = none) :
    exitRowV2 m hcols row = .error () := by
  rw [exitRowV2, hst]

theorem exitRowV2_ok_mem {m : List (String × String)} {hcols : List String}
    {row : HRow} {x : List SRecord} (hx : exitRowV2 m hcols row = .ok x)
    {r : SRecord} (hr : r ∈ x) :
    ∃ st, row.station = some st ∧ r.station = canonName m st ∧
      r.date = row.businessDate ∧ r.hour < 24 := by
  rw [exitRowV2] at hx
  rcases hst : row.station with - | st
  · rw [hst] at hx
    exact absurd hx (by simp)
  · rw [hst] at hx
    obtain rfl := Except.ok.inj hx
    obtain ⟨h, hh, rfl⟩ := List.mem_map.mp hr
    exact ⟨st, rfl, rfl, rfl, List.mem_range.mp hh⟩

theorem exitBlockV1_filter (m : List (String × String)) (t : PairTable)
    (d s : String) (ds : String × String) :
    (exitBlockV1 m t ds).filter (fun r => r.date == d && r.station == s) =
      if ds = (d, s) then exitBlockV1 m t ds else [] := by
  by_cases hds : ds = (d, s)
  · subst hds
    rw [if_pos rfl]
    apply List.filter_eq_self.mpr
    intro r hr
    obtain ⟨h, -, rfl⟩ := List.mem_map.mp hr
    simp
  · rw [if_neg hds]
    apply List.filter_eq_nil_iff.mpr
    intro r hr
    obtain ⟨h, -, rfl⟩ := List.mem_map.mp hr
    simp only [Bool.and_eq_true, beq_iff_eq, not_and]
    intro h1 h2
    exact hds (Prod.ext_iff.mpr ⟨h1, h2⟩)

theorem flatMap_exitBlock_filter_nil {m : List (String × String)} {t : PairTable}
    {d s : String} :
    ∀ {combos : List (String × String)}, (d, s) ∉ combos →
      (combos.flatMap (exitBlockV1 m t)).filter
        (fun r => r.date == d && r.station == s) = [] := by
  intro combos
  induction combos with
  | nil => intro; simp
  | cons x xs ih =>
      intro hnot
      rw [List.flatMap_cons, List.filter_append, exitBlockV1_filter,
        if_neg (fun hx => hnot (by rw [← hx]; exact List.mem_cons_self x xs)),
        List.nil_append]
      exact ih (fun hmem => hnot (List.mem_cons_of_mem x hmem))

theorem flatMap_exitBlock_filter {m : List (String × String)} {t : PairTable}
    {d s : String} :
    ∀ {combos : List (String × String)}, combos.Nodup → (d, s) ∈ combos →
      (combos.flatMap (exitBlockV1 m t)).filter
        (fun r => r.date == d && r.station == s) = exitBlockV1 m t (d, s) := by
  intro combos
  induction combos with
  | nil => intro _ hmem; cases hmem
  | cons x xs ih =>
      intro hnd hmem
      rw [List.flatMap_cons, List.filter_append, exitBlockV1_filter]
      rcases List.mem_cons.mp hmem with rfl | hmem2
      · rw [if_pos rfl, flatMap_exitBlock_filter_nil (List.nodup_cons.mp hnd).1,
          List.append_nil]
      · have hxne : x ≠ (d, s) := by
          rintro rfl
          exact (List.nodup_cons.mp hnd).1 hmem2
        rw [if_neg hxne, List.nil_append]
        exact ih (List.nodup_cons.mp hnd).2 hmem2

theorem exitBlockV1_map_hour (m : List (String × String)) (t : PairTable)
    (ds : String × String) :
    (exitBlockV1 m t ds).map SRecord.hour = List.range 24 := by
  unfold exitBlockV1
  rw [List.map_map]
  exact List.map_id _

theorem sum_map_ite_count (q : HRow → Bool) :
    ∀ (rows : List HRow),
      (rows.map (fun r => if q r then 24 else 0)).sum = 24 * rows.countP q := by
  intro rows
  induction rows with
  | nil => simp
  | cons r rs ih =>
      rw [List.map_cons, List.sum_cons, ih, List.countP_cons]
      by_cases hq : q r
      · simp [hq]
        ring
      · simp [hq]

theorem sum_map_mul24 (f : Sheet → Nat) :
    ∀ (l : List Sheet), (l.map (fun sh => 24 * f sh)).sum = 24 * (l.map f).sum := by
  intro l
  induction l with
  | nil => simp
  | cons sh rest ih =>
      rw [List.map_cons, List.sum_cons, ih, List.map_cons, List.sum_cons,
        Nat.mul_add]

theorem exitRowV2_filter_length {m : List (String × String)} {hcols : List String}
    {d s : String} {row : HRow} {x : List SRecord}
    (hx : exitRowV2 m hcols row = .ok x) :
    (x.filter (fun r => r.date == d && r.station == s)).length =
      if exitRowMatches m d s row then 24 else 0 := by
  rw [exitRowV2] at hx
  rcases hst : row.station with - | st
  · rw [hst] at hx
    exact absurd hx (by simp)
  · rw [hst] at hx
    obtain rfl := Except.ok.inj hx
    unfold exitRowMatches
    rw [hst]
    by_cases hm : (row.businessDate == d && canonName m st == s)
    · rw [if_pos hm]
      rw [List.filter_eq_self.mpr]
      · simp
      · intro r hr
        obtain ⟨h, -, rfl⟩ := List.mem_map.mp hr
        exact hm
    · rw [if_neg hm]
      rw [List.filter_eq_nil_iff.mpr]
      · rfl
      · intro r hr
        obtain ⟨h, -, rfl⟩ := List.mem_map.mp hr
        exact fun hc => hm hc

theorem isHourColV2_iff {c : String} : isHourColV2 c = true ↔ specHPat c := by
  unfold isHourColV2 specHPat
  rcases hd : c.data with - | ⟨x, - | ⟨y, - | ⟨z, - | ⟨w, rest⟩⟩⟩⟩ <;>
    simp only [hd]
  · simp
  · simp
  · simp
  · simp only [Bool.and_eq_true, beq_iff_eq]
    constructor
    · rintro ⟨⟨rfl, hy⟩, hz⟩
      exact ⟨y, z, hy, hz, rfl⟩
    · rintro ⟨a, b, ha, hb, heq⟩
      injection heq with h1 hrest
      injection hrest with h2 hrest2
      injection hrest2 with h3 hnil
      subst h1; subst h2; subst h3
      exact ⟨⟨rfl, ha⟩, hb⟩
  · simp

theorem sLE_trans : ∀ (a b c : SRecord), sLE a b → sLE b c → sLE a c := by
  intro a b c hab hbc
  simp only [sLE, decide_eq_true_eq] at hab hbc ⊢
  exact le_trans hab hbc

theorem sLE_total : ∀ (a b : SRecord), sLE a b || sLE b a := by
  intro a b
  simp only [sLE, Bool.or_eq_true, decide_eq_true_eq]
  exact le_total _ _

theorem sLE_iff {a b : SRecord} : sLE a b = true ↔ sKeyLEP a b := by
  simp only [sLE, decide_eq_true_eq, sKey, sKeyLEP, Prod.Lex.le_iff]

theorem pLE_trans : ∀ (a b c : PRecord), pLE a b → pLE b c → pLE a c := by
  intro a b c hab hbc
  simp only [pLE, decide_eq_true_eq] at hab hbc ⊢
  exact le_trans hab hbc

theorem pLE_total : ∀ (a b : PRecord), pLE a b || pLE b a := by
  intro a b
  simp only [pLE, Bool.or_eq_true, decide_eq_true_eq]
  exact le_total _ _

theorem pLE_iff {a b : PRecord} : pLE a b = true ↔ pKeyLEP a b := by
  simp only [pLE, decide_eq_true_eq, pKey, pKeyLEP, Prod.Lex.le_iff]

theorem pairRowRecs_mem {m : List (String × String)} {scols : List String}
    {d : String} {h : Nat} {origin : String} {row : PairRow} {r : PRecord} :
    r ∈ pairRowRecs m scols d h origin row ↔
      ∃ c ∈ scols, ∃ q, row.cell c = some q ∧ q ≠ 0 ∧
        r = ⟨d, h, dictGet m origin, dictGet m c, truncInt q⟩ := by
  unfold pairRowRecs
  rw [List.mem_filterMap]
  constructor
  · rintro ⟨c, hc, hfc⟩
    rcases hcell : row.cell c with - | q
    · simp only [hcell] at hfc
      exact Option.noConfusion hfc
    · simp only [hcell] at hfc
      by_cases hq : q = 0
      · rw [if_pos hq] at hfc
        exact absurd hfc (by simp)
      · rw [if_neg hq] at hfc
        obtain rfl := Option.some.inj hfc
        exact ⟨c, hc, q, hcell, hq, rfl⟩
  · rintro ⟨c, hc, q, hcell, hq, rfl⟩
    refine ⟨c, hc, ?_⟩
    simp only [hcell]
    rw [if_neg hq]

theorem pairRecsOf_mem {m : List (String × String)} {t : PairTable} {r : PRecord} :
    r ∈ pairRecsOf m t ↔
      ∃ row ∈ t.rows, ∃ d h origin, pairRowGate row = some (d, h, origin) ∧
        ∃ c ∈ stationColsPair t.cols, ∃ q, row.cell c = some q ∧ q ≠ 0 ∧
          r = ⟨d, h, dictGet m origin, dictGet m c, truncInt q⟩ := by
  unfold pairRecsOf
  rw [List.mem_flatMap]
  constructor
  · rintro ⟨row, hrow, hr⟩
    rcases hg : pairRowGate row with - | ⟨d, h, origin⟩
    · rw [hg] at hr
      cases hr
    · rw [hg] at hr
      obtain ⟨c, hc, q, hcell, hq, rfl⟩ := pairRowRecs_mem.mp hr
      exact ⟨row, hrow, d, h, origin, hg, c, hc, q, hcell, hq, rfl⟩
  · rintro ⟨row, hrow, d, h, origin, hg, c, hc, q, hcell, hq, rfl⟩
    refine ⟨row, hrow, ?_⟩
    rw [hg]
    exact pairRowRecs_mem.mpr ⟨c, hc, q, hcell, hq, rfl⟩

theorem pairRowRecs_length {m : List (String × String)} {scols : List String}
    {d : String} {h : Nat} {origin : String} {row : PairRow} :
    (pairRowRecs m scols d h origin row).length =
      scols.countP (fun c => nonzeroCellB (row.cell c)) := by
  unfold pairRowRecs
  rw [List.length_filterMap_eq_countP]
  apply List.countP_congr
  intro c _
  rcases hcell : row.cell c with - | q
  · simp [hcell, nonzeroCellB]
  · by_cases hq : q = 0 <;> simp [hcell, nonzeroCellB, hq]

theorem pairRecsOf_length {m : List (String × String)} {t : PairTable} :
    (pairRecsOf m t).length = nonzeroCountOf t := by
  unfold pairRecsOf nonzeroCountOf
  rw [List.length_flatMap]
  congr 1
  apply List.map_congr_left
  intro row _
  rcases hg : pairRowGate row with - | ⟨d, h, origin⟩ <;>
    simp [Function.comp, hg, pairRowRecs_length]

theorem pairRecsOf_skip {m : List (String × String)} {cols : List String}
    {pre post : List PairRow} {row : PairRow} (hst : row.station = none) :
    pairRecsOf m ⟨cols, pre ++ row :: post⟩ = pairRecsOf m ⟨cols, pre ++ post⟩ := by
  have hg : pairRowGate row = none := by
    unfold pairRowGate
    rw [hst]
  unfold pairRecsOf
  simp [List.flatMap_append, List.flatMap_cons, hg]

theorem exitsV1_mem {m : List (String × String)} {t : PairTable} {r : SRecord}
    (hr : r ∈ process_station_hourly_exits_v1 m t) :
    ∃ ds ∈ combosOf m (stationColsPair t.cols) t.rows, ∃ h < 24,
      r = ⟨ds.1, h, ds.2,
        exitDataOf m (stationColsPair t.cols) t.rows (ds.1, h, ds.2)⟩ := by
  unfold process_station_hourly_exits_v1 at hr
  obtain ⟨ds, hds, hrb⟩ := List.mem_flatMap.mp hr
  obtain ⟨h, hh, rfl⟩ := List.mem_map.mp hrb
  exact ⟨ds, hds, h, List.mem_range.mp hh, rfl⟩

/-! ### Claim theorems -/

/-- C5: the format detector, given the header labels, returns V2 if and
only if some column label is the letter H followed by exactly two decimal
digits, and returns V1 otherwise; it is a total function, so absence of
such a column defaults to V1 and never fails. -/
theorem claim_C5 (cols : List String) :
    (detectFormat cols = .V2 ↔ ∃ c ∈ cols, specHPat c) ∧
      ((¬ ∃ c ∈ cols, specHPat c) → detectFormat cols = .V1) := by
  have hiff : detectFormat cols = .V2 ↔ ∃ c ∈ cols, specHPat c := by
    unfold detectFormat
    by_cases hany : cols.any isHourColV2 = true
    · rw [if_pos hany]
      obtain ⟨c, hc, hcol⟩ := List.any_eq_true.mp hany
      exact ⟨fun _ => ⟨c, hc, isHourColV2_iff.mp hcol⟩, fun _ => rfl⟩
    · rw [if_neg hany]
      refine ⟨fun hcon => FormatVersion.noConfusion hcon, fun hex => ?_⟩
      obtain ⟨c, hc, hs⟩ := hex
      exact absurd (List.any_eq_true.mpr ⟨c, hc, isHourColV2_iff.mpr hs⟩) hany
  refine ⟨hiff, fun hnot => ?_⟩
  rcases hfv : detectFormat cols with - | -
  · rfl
  · exact absurd (hiff.mp hfv) hnot

/-- Witness for C5: the spec scenario 2 header set is classified V2, and
the empty header set (no H-pattern column) is classified V1. -/
theorem claim_C5_witness :
    detectFormat ["BUSINESS DATE", "STATION", "H00", "H05", "H23", "TOTAL"] = .V2 ∧
      detectFormat [] = .V1 :=
  ⟨(claim_C5 _).1.mpr ⟨"H00", by decide, '0', '0', by decide, by decide, rfl⟩,
   (claim_C5 _).2 (by rintro ⟨c, hc, -⟩; exact (List.not_mem_nil c) hc)⟩

/-- C8 counterexample: with an empty OldNameMap, the label "A-B-C"
canonicalizes to "B-C", which is already a canonical output, yet a second
application changes it (to "C"), so the canonicalization is not idempotent
as claimed. -/
theorem claim_C8_cex :
    canonName [] "A-B-C" = "B-C" ∧
      canonName [] (canonName [] "A-B-C") ≠ canonName [] "A-B-C" := by
  constructor
  · decide
  · decide

/-- C8 (amended): canonicalization is idempotent on every output that
contains no hyphen and is not a key of the OldNameMap; a canonical output
that still contains a hyphen (from a multi-hyphen label or a hyphenated
mapping value), or that the mapping sends elsewhere, can change again. -/
theorem claim_C8 (m : List (String × String)) (s : String)
    (hhy : (canonName m s).data.contains '-' = false)
    (hfix : m.lookup (canonName m s) = none) :
    canonName m (canonName m s) = canonName m s := by
  rw [canonName,
    if_neg (fun hcon => by rw [hhy] at hcon; exact Bool.noConfusion hcon),
    dictGet, hfix]

/-- Witness for C8: the spec scenario 1 label "BLUE-Majestic" with the
empty mapping reaches the hyphen-free fixed point "Majestic". -/
theorem claim_C8_witness :
    canonName [] (canonName [] "BLUE-Majestic") = canonName [] "BLUE-Majestic" :=
  claim_C8 [] "BLUE-Majestic" (by decide) (by decide)

/-- C9: every record emitted by the aggregation exit deriver has an hour
in 0..23; on a table whose composite label parses to hour 25 the value 12
is accumulated under the never-emitted key (2025-08-01, 25,
Baiyappanahalli), so the emitted 24 records all carry ridership 0. -/
theorem claim_C9 :
    (∀ (m : List (String × String)) (t : PairTable) (r : SRecord),
        r ∈ process_station_hourly_exits_v1 m t → r.hour < 24) ∧
      exitDataOf mapMJBN (stationColsPair tblHr25.cols) tblHr25.rows
        ("2025-08-01", 25, "Baiyappanahalli") = 12 ∧
      (process_station_hourly_exits_v1 mapMJBN tblHr25).length = 24 ∧
      (process_station_hourly_exits_v1 mapMJBN tblHr25).all
        (fun r => r.ridership == 0) = true := by
  refine ⟨?_, by decide, by decide, by decide⟩
  intro m t r hr
  obtain ⟨ds, -, h, hh, rfl⟩ := exitsV1_mem hr
  exact hh

/-- Witness for C9 at a concrete emitted record. -/
theorem claim_C9_witness :
    (⟨"2025-08-01", 0, "Baiyappanahalli", 0⟩ : SRecord).hour < 24 :=
  claim_C9.1 mapMJBN tblHr25 ⟨"2025-08-01", 0, "Baiyappanahalli", 0⟩ (by decide)

/-- C3 counterexample: the aggregation strategy does not apply the
hyphen-split canonicalization: a destination column labelled "A-B" is
emitted as station "A-B" (through the StationCodeMap with identity
fallback), while the entry canonicalization of "A-B" is "B". -/
theorem claim_C3_cex :
    (⟨"2025-08-01", 8, "A-B", 5⟩ : SRecord) ∈
        process_station_hourly_exits_v1 [] tblHyphenDest ∧
      canonName [] "A-B" = "B" ∧ ("A-B" : String) ≠ "B" := by
  refine ⟨by decide, by decide, by decide⟩

/-- C3 (amended): only the direct-extraction strategy applies the entry
canonicalization (hyphen split then OldNameMap); the aggregation strategy
instead passes the destination column label through the StationCodeMap
with identity fallback, with no hyphen handling. -/
theorem claim_C3 :
    (∀ (m : List (String × String)) (wb : List Sheet) (l : List SRecord)
        (r : SRecord), process_station_hourly_exits_v2 m wb = .ok l → r ∈ l →
        ∃ sh ∈ wb, isExitSheet sh = true ∧ ∃ row ∈ sh.rows, ∃ st,
          row.station = some st ∧ r.station = canonName m st) ∧
      (∀ (m : List (String × String)) (t : PairTable) (r : SRecord),
        r ∈ process_station_hourly_exits_v1 m t →
        ∃ c ∈ stationColsPair t.cols, r.station = dictGet m c) := by
  constructor
  · intro m wb l r hok hr
    obtain ⟨sh, hsh, x, hx, hrx⟩ := exceptConcat_mem hok hr
    obtain ⟨shmem, hexit⟩ := List.mem_filter.mp hsh
    obtain ⟨row, hrowmem, y, hy, hry⟩ := exceptConcat_mem hx hrx
    obtain ⟨st, hst, hstation, -, -⟩ := exitRowV2_ok_mem hy hry
    exact ⟨sh, shmem, hexit, row, hrowmem, st, hst, hstation⟩
  · intro m t r hr
    obtain ⟨ds, hds, h, -, rfl⟩ := exitsV1_mem hr
    obtain ⟨row, -, d2, h2, o, -, c, hc, hdsc⟩ := combosOf_mem.mp hds
    exact ⟨c, hc, by rw [hdsc]⟩

/-- Witness for C3: the v2 exit sheet station "PURPLE-Old" is emitted
under the canonical name "New", and concrete aggregation output stations
come from the station columns. -/
theorem claim_C3_witness :
    (∃ sh ∈ wbExitOld, isExitSheet sh = true ∧ ∃ row ∈ sh.rows, ∃ st,
        row.station = some st ∧
        (⟨"2025-09-01", 0, "New", 7⟩ : SRecord).station = canonName mapOldNew st) ∧
      ∃ c ∈ stationColsPair tblHyphenDest.cols,
        (⟨"2025-08-01", 8, "A-B", 5⟩ : SRecord).station = dictGet [] c :=
  ⟨claim_C3.1 mapOldNew wbExitOld
      ((List.range 24).map (fun h => ⟨"2025-09-01", h, "New", if h = 0 then 7 else 0⟩))
      ⟨"2025-09-01", 0, "New", 7⟩ (by decide) (by decide),
   claim_C3.2 [] tblHyphenDest ⟨"2025-08-01", 8, "A-B", 5⟩ (by decide)⟩

/-- C6 counterexample: a negative source cell passes through the integer
cast unchanged, so the v1 entry normalizer emits a negative Ridership. -/
theorem claim_C6_cex :
    process_station_hourly_data_v1 [] tblNegEntry =
        .ok [⟨"2025-08-01", 0, "X", -5⟩] ∧ ¬(0 ≤ (-5 : Int)) := by
  refine ⟨by decide, by decide⟩

/-- C6 (amended): in both entry normalizers a missing (NaN) cell is
coerced to 0, and every emitted Ridership is the truncation of its source
cell, hence non-negative whenever all source cell values are
non-negative; a negative source cell would be emitted negatively. -/
theorem claim_C6 :
    cellInt none = 0 ∧
      (∀ (m : List (String × String)) (t : HTable) (l : List SRecord),
        process_station_hourly_data_v1 m t = .ok l →
        (∀ row ∈ t.rows, ∀ (c : String) (q : ℚ), row.cell c = some q → 0 ≤ q) →
        ∀ r ∈ l, 0 ≤ r.ridership) ∧
      (∀ (m : List (String × String)) (wb : List Sheet) (l : List SRecord),
        process_station_hourly_data_v2 m wb = .ok l →
        (∀ sh ∈ wb, ∀ row ∈ sh.rows, ∀ (c : String) (q : ℚ),
          row.cell c = some q → 0 ≤ q) →
        ∀ r ∈ l, 0 ≤ r.ridership) := by
  refine ⟨rfl, ?_, ?_⟩
  · intro m t l hok hcells r hr
    obtain ⟨row, hrow, x, hx, hrx⟩ := exceptConcat_mem hok hr
    obtain ⟨c, -, hrid⟩ := entryRowV1_mem hx hrx
    rw [hrid]
    rcases hcell : row.cell c with - | q
    · exact le_of_eq rfl
    · exact truncInt_nonneg (hcells row hrow c q hcell)
  · intro m wb l hok hcells r hr
    obtain ⟨sh, hsh, x, hx, hrx⟩ := exceptConcat_mem hok hr
    obtain ⟨row, hrowmem, y, hy, hry⟩ := exceptConcat_mem hx hrx
    obtain ⟨c, -, hrid⟩ := entryRowV2_mem hy hry
    rw [hrid]
    rcases hcell : row.cell c with - | q
    · exact le_of_eq rfl
    · exact truncInt_nonneg (hcells sh (List.mem_filter.mp hsh).1 row hrowmem c q hcell)

/-- Witness for C6 on the scenario 1 table (empty cell, output 0). -/
theorem claim_C6_witness :
    0 ≤ (⟨"2025-08-01", 0, "Majestic", 0⟩ : SRecord).ridership := by
  refine claim_C6.2.1 [] tblBlueMajestic [⟨"2025-08-01", 0, "Majestic", 0⟩]
    (by decide) ?_ _ (by decide)
  intro row hrow c q hcell
  rcases List.mem_cons.mp hrow with rfl | hnil
  · exact absurd hcell (by simp)
  · cases hnil

/-- C4 counterexample: a destination cell holding the fraction one half is
nonzero, so a record is produced, but the integer cast truncates it to 0,
violating the claimed Ridership > 0 invariant. -/
theorem claim_C4_cex :
    process_stationpair_hourly_data mapMJBN tblHalfPair =
        [⟨"2025-08-01", 8, "Majestic", "Baiyappanahalli", 0⟩] ∧
      ¬(0 < (⟨"2025-08-01", 8, "Majestic", "Baiyappanahalli", 0⟩ : PRecord).ridership) := by
  constructor
  · have h : pairRecsOf mapMJBN tblHalfPair =
        [⟨"2025-08-01", 8, "Majestic", "Baiyappanahalli", 0⟩] := by decide
    rw [process_stationpair_hourly_data, h, List.mergeSort_singleton]
  · decide

/-- C4 (amended): every emitted pair record comes from a gated row and a
present nonzero destination cell, with both names mapped through the
StationCodeMap with identity fallback and Ridership the truncation of the
cell value; each such cell yields exactly one record (the output length
equals the count of present nonzero cells over gated rows); Ridership > 0
holds whenever all source cell values are non-negative integers, while a
fractional cell in (0, 1) truncates to 0. -/
theorem claim_C4 :
    (∀ (m : List (String × String)) (t : PairTable) (r : PRecord),
        r ∈ process_stationpair_hourly_data m t →
        ∃ row ∈ t.rows, ∃ d h origin, pairRowGate row = some (d, h, origin) ∧
          ∃ c ∈ stationColsPair t.cols, ∃ q, row.cell c = some q ∧ q ≠ 0 ∧
            r = ⟨d, h, dictGet m origin, dictGet m c, truncInt q⟩) ∧
      (∀ (m : List (String × String)) (t : PairTable),
        (process_stationpair_hourly_data m t).length = nonzeroCountOf t) ∧
      (∀ (m : List (String × String)) (t : PairTable),
        (∀ row ∈ t.rows, ∀ (c : String) (q : ℚ), row.cell c = some q →
          0 ≤ q ∧ q.den = 1) →
        ∀ r ∈ process_stationpair_hourly_data m t, 0 < r.ridership) := by
  have hmem : ∀ (m : List (String × String)) (t : PairTable) (r : PRecord),
      r ∈ process_stationpair_hourly_data m t ↔ r ∈ pairRecsOf m t := by
    intro m t r
    unfold process_stationpair_hourly_data
    exact List.mem_mergeSort
  refine ⟨?_, ?_, ?_⟩
  · intro m t r hr
    exact pairRecsOf_mem.mp ((hmem m t r).mp hr)
  · intro m t
    unfold process_stationpair_hourly_data
    rw [List.length_mergeSort]
    exact pairRecsOf_length
  · intro m t hcells r hr
    obtain ⟨row, hrow, d, h, origin, -, c, -, q, hcell, hq, rfl⟩ :=
      pairRecsOf_mem.mp ((hmem m t r).mp hr)
    obtain ⟨hq0, hden⟩ := hcells row hrow c q hcell
    show 0 < truncInt q
    rw [truncInt_intCast hden]
    have hne : q.num ≠ 0 := Rat.num_ne_zero.mpr hq
    have hge : 0 ≤ q.num := Rat.num_nonneg.mpr hq0
    omega

/-- Witness for C4 on the scenario 3 pair data (cell 12, record 12 > 0). -/
theorem claim_C4_witness :
    0 < (⟨"2025-08-01", 8, "Majestic", "Baiyappanahalli", 12⟩ : PRecord).ridership := by
  refine claim_C4.2.2 mapMJBN tblAgg ?_ _ ?_
  · intro row hrow c q hcell
    have hval : ∀ (v : ℚ), v.den = 1 → 0 ≤ v →
        (if c = "BN" then some v else none) = some q → 0 ≤ q ∧ q.den = 1 := by
      intro v hd hv hif
      by_cases hc : c = "BN"
      · rw [if_pos hc] at hif
        obtain rfl := Option.some.inj hif
        exact ⟨hv, hd⟩
      · rw [if_neg hc] at hif
        exact absurd hif (by simp)
    rcases List.mem_cons.mp hrow with rfl | hrow2
    · exact hval 12 (by decide) (by norm_num) hcell
    · rcases List.mem_cons.mp hrow2 with rfl | hnil
      · exact hval 5 (by decide) (by norm_num) hcell
      · cases hnil
  · show _ ∈ process_stationpair_hourly_data mapMJBN tblAgg
    unfold process_stationpair_hourly_data
    exact List.mem_mergeSort.mpr (by decide)

/-- C2 counterexample: with a single fractional destination cell of 5/2,
the emitted ridership is the truncation 2, not the claimed sum of the raw
nonzero cell values, which is 5/2. -/
theorem claim_C2_cex :
    (⟨"2025-08-01", 8, "Baiyappanahalli", 2⟩ : SRecord) ∈
        process_station_hourly_exits_v1 mapMJBN tblAggFrac ∧
      rowSumQ mapMJBN (stationColsPair tblAggFrac.cols) tblAggFrac.rows
        "2025-08-01" 8 "Baiyappanahalli" = qFiveHalves ∧
      ((2 : Int) : ℚ) ≠ qFiveHalves := by
  refine ⟨by decide, ?_, ?_⟩
  · have h1 : pairRowGate rowAggFrac = some ("2025-08-01", 8, "MJ") := by decide
    have hF : (stationColsPair ["BUSINESS DATE", "STATION", "BN"]).filter
        (fun c => dictGet mapMJBN c == "Baiyappanahalli") = ["BN"] := by decide
    have hcv : colValQ rowAggFrac "BN" = qFiveHalves := rfl
    simp only [rowSumQ, tblAggFrac, List.map_cons, List.map_nil, List.sum_cons,
      List.sum_nil, add_zero, rowContribQ, h1, hF, hcv]
    norm_num
  · intro hcon
    have hden := congrArg Rat.den hcon
    have h2 : ((2 : Int) : ℚ).den = 1 := by norm_num
    rw [h2] at hden
    exact absurd hden.symm (by decide)

/-- C2 (amended): every record emitted by the aggregation exit deriver
carries exactly the sum, over the gated rows with its date and hour, of
the truncated nonzero cell values of the destination columns mapping to
its station; this sum is invariant under any permutation of the rows. -/
theorem claim_C2 :
    (∀ (m : List (String × String)) (t : PairTable) (r : SRecord),
        r ∈ process_station_hourly_exits_v1 m t →
        r.ridership =
          rowSumV1 m (stationColsPair t.cols) t.rows r.date r.hour r.station) ∧
      (∀ (m : List (String × String)) (scols : List String)
        (rows rows2 : List PairRow), rows.Perm rows2 →
        ∀ (d : String) (h : Nat) (s : String),
          rowSumV1 m scols rows d h s = rowSumV1 m scols rows2 d h s) := by
  constructor
  · intro m t r hr
    obtain ⟨ds, -, h, -, rfl⟩ := exitsV1_mem hr
    exact exitDataOf_eq_rowSumV1 m (stationColsPair t.cols) t.rows ds.1 h ds.2
  · intro m scols rows rows2 hp d h s
    exact rowSumV1_perm m scols hp d h s

/-- Witness for C2 on the scenario 4 data: two origins contributing 12 and
5 yield the single hour-8 record 17, and swapping the two rows leaves the
sum unchanged. -/
theorem claim_C2_witness :
    ((⟨"2025-08-01", 8, "Baiyappanahalli", 17⟩ : SRecord).ridership =
        rowSumV1 mapMJBN (stationColsPair tblAgg.cols) tblAgg.rows
          "2025-08-01" 8 "Baiyappanahalli") ∧
      rowSumV1 mapMJBN ["BN"] [rowAgg5, rowAgg12] "2025-08-01" 8 "Baiyappanahalli" =
        rowSumV1 mapMJBN ["BN"] [rowAgg12, rowAgg5] "2025-08-01" 8 "Baiyappanahalli" :=
  ⟨claim_C2.1 mapMJBN tblAgg ⟨"2025-08-01", 8, "Baiyappanahalli", 17⟩ (by decide),
   claim_C2.2 mapMJBN ["BN"] [rowAgg5, rowAgg12] [rowAgg12, rowAgg5]
     (List.Perm.swap rowAgg12 rowAgg5 []) "2025-08-01" 8 "Baiyappanahalli"⟩

theorem exitSheetV2_filter_length {m : List (String × String)} {d s : String}
    {sh : Sheet} {x : List SRecord}
    (hx : exceptConcat (exitRowV2 m (hourColsV2 sh.cols)) sh.rows = .ok x) :
    (x.filter (fun r => r.date == d && r.station == s)).length =
      24 * sh.rows.countP (exitRowMatches m d s) := by
  rw [exceptConcat_filter_length (fun row y hy => exitRowV2_filter_length hy) hx,
    sum_map_ite_count]

/-- C1 counterexample: a v2 Exit sheet listing the same (date, station)
row twice yields 48 records for that pair, not 24; the processing
succeeds, and the pair is observed in two rows. -/
theorem claim_C1_cex :
    ((fileContrib (process_station_hourly_exits_v2 [] wbDupExit)).filter
        (fun r => r.date == "2025-09-01" && r.station == "X")).length = 48 ∧
      (process_station_hourly_exits_v2 [] wbDupExit).isOk = true ∧
      exitRowCountV2 [] wbDupExit "2025-09-01" "X" = 2 := by
  refine ⟨by decide, by decide, by decide⟩

/-- C1 (amended): in the aggregation strategy every observed (Date,
Station) pair yields exactly the 24 hours 0..23, one record each, a
record carrying 0 whenever no gated row contributed to its (date, hour,
station); in the direct-extraction strategy every processed row yields
one record per hour 0..23 (0 when the hour column is absent), so a
(Date, Station) pair carried by k rows of the Exit sheets yields 24·k
records, which is exactly 24 precisely when k = 1. -/
theorem claim_C1 :
    (∀ (m : List (String × String)) (t : PairTable) (d s : String),
        observedV1 m t d s →
        ((process_station_hourly_exits_v1 m t).filter
          (fun r => r.date == d && r.station == s)).map SRecord.hour =
            List.range 24) ∧
      (∀ (m : List (String × String)) (t : PairTable) (r : SRecord),
        r ∈ process_station_hourly_exits_v1 m t →
        rowSumV1 m (stationColsPair t.cols) t.rows r.date r.hour r.station = 0 →
        r.ridership = 0) ∧
      (∀ (m : List (String × String)) (row : HRow) (x : List SRecord),
        exitRowV2 m [] row = .ok x → ∀ r ∈ x, r.ridership = 0) ∧
      (∀ (m : List (String × String)) (wb : List Sheet) (l : List SRecord)
        (d s : String), process_station_hourly_exits_v2 m wb = .ok l →
        (l.filter (fun r => r.date == d && r.station == s)).length =
          24 * exitRowCountV2 m wb d s) := by
  refine ⟨?_, ?_, ?_, ?_⟩
  · intro m t d s hobs
    have hmem : (d, s) ∈ combosOf m (stationColsPair t.cols) t.rows := by
      obtain ⟨row, hrow, hdate, c, hc, hdict⟩ := hobs
      rcases hg : pairRowGate row with - | ⟨d2, h2, o⟩
      · rw [hg] at hdate
        exact absurd hdate (by simp)
      · rw [hg] at hdate
        have hd2 : d2 = d := by simpa using hdate
        exact combosOf_mem.mpr ⟨row, hrow, d2, h2, o, hg, c, hc,
          by rw [hdict, hd2]⟩
    unfold process_station_hourly_exits_v1
    rw [flatMap_exitBlock_filter combosOf_nodup hmem, exitBlockV1_map_hour]
  · intro m t r hr hsum
    obtain ⟨ds, -, h, -, rfl⟩ := exitsV1_mem hr
    show exitDataOf m (stationColsPair t.cols) t.rows (ds.1, h, ds.2) = 0
    rw [exitDataOf_eq_rowSumV1]
    exact hsum
  · intro m row x hx r hr
    rw [exitRowV2] at hx
    rcases hst : row.station with - | st
    · rw [hst] at hx
      exact absurd hx (by simp)
    · rw [hst] at hx
      obtain rfl := Except.ok.inj hx
      obtain ⟨h, -, rfl⟩ := List.mem_map.mp hr
      simp [List.contains]
  · intro m wb l d s hok
    unfold process_station_hourly_exits_v2 at hok
    rw [exceptConcat_filter_length (fun sh x hx => exitSheetV2_filter_length hx) hok,
      sum_map_mul24]
    rfl

/-- Witness for C1: the observed pair of the scenario 4 table gets hours
0..23 exactly, and the single-row v2 Exit sheet yields 24·1 records. -/
theorem claim_C1_witness :
    (((process_station_hourly_exits_v1 mapMJBN tblAgg).filter
        (fun r => r.date == "2025-08-01" && r.station == "Baiyappanahalli")).map
          SRecord.hour = List.range 24) ∧
      (⟨"2025-08-01", 0, "Baiyappanahalli", 0⟩ : SRecord).ridership = 0 ∧
      (⟨"2025-09-01", 0, "X", 0⟩ : SRecord).ridership = 0 ∧
      ((fileContrib (process_station_hourly_exits_v2 mapOldNew wbExitOld)).filter
        (fun r => r.date == "2025-09-01" && r.station == "New")).length =
          24 * exitRowCountV2 mapOldNew wbExitOld "2025-09-01" "New" :=
  ⟨claim_C1.1 mapMJBN tblAgg "2025-08-01" "Baiyappanahalli" (by decide),
   claim_C1.2.1 mapMJBN tblHr25 ⟨"2025-08-01", 0, "Baiyappanahalli", 0⟩
     (by decide) (by decide),
   claim_C1.2.2.1 [] rowExitX
     ((List.range 24).map (fun h => ⟨"2025-09-01", h, "X", 0⟩))
     (by decide) ⟨"2025-09-01", 0, "X", 0⟩ (by decide),
   claim_C1.2.2.2 mapOldNew wbExitOld
     (fileContrib (process_station_hourly_exits_v2 mapOldNew wbExitOld))
     "2025-09-01" "New" (by decide)⟩

/-- C7: both combiners return a permutation of the concatenation of their
inputs, of length the sum of the input lengths, sorted ascending by
(Date, Station, Hour) for station records and by (Date, Hour, Origin,
Destination) for pair records; the pair normalizer output is likewise the
sorted permutation of its unsorted record list. -/
theorem claim_C7 :
    (∀ parts : List (List SRecord),
        (combineStationRecs parts).Perm parts.flatten ∧
        (combineStationRecs parts).length = (parts.map List.length).sum ∧
        (combineStationRecs parts).Pairwise sKeyLEP) ∧
      (∀ parts : List (List PRecord),
        (combinePairRecs parts).Perm parts.flatten ∧
        (combinePairRecs parts).length = (parts.map List.length).sum ∧
        (combinePairRecs parts).Pairwise pKeyLEP) ∧
      (∀ (m : List (String × String)) (t : PairTable),
        (process_stationpair_hourly_data m t).Perm (pairRecsOf m t) ∧
        (process_stationpair_hourly_data m t).Pairwise pKeyLEP) := by
  refine ⟨fun parts => ⟨?_, ?_, ?_⟩, fun parts => ⟨?_, ?_, ?_⟩,
    fun m t => ⟨?_, ?_⟩⟩
  · exact List.mergeSort_perm _ _
  · rw [combineStationRecs, List.length_mergeSort, List.length_flatten]
  · exact (List.sorted_mergeSort sLE_trans sLE_total _).imp
      (fun h => sLE_iff.mp h)
  · exact List.mergeSort_perm _ _
  · rw [combinePairRecs, List.length_mergeSort, List.length_flatten]
  · exact (List.sorted_mergeSort pLE_trans pLE_total _).imp
      (fun h => pLE_iff.mp h)
  · exact List.mergeSort_perm _ _
  · exact (List.sorted_mergeSort pLE_trans pLE_total _).imp
      (fun h => pLE_iff.mp h)

/-- C10 counterexample: a v1 entry table with a NaN STATION row but no
hour-pattern column is processed without any exception, returning an
empty output instead of failing the file. -/
theorem claim_C10_cex :
    tblNoHourCols.rows.any (fun row => row.station.isNone) = true ∧
      process_station_hourly_data_v1 [] tblNoHourCols = .ok [] := by
  refine ⟨by decide, by decide⟩

/-- C10 (amended): the pair normalizer skips a NaN-origin row, while the
entry normalizers and the direct-extraction exit deriver have no row-level
skip: a NaN STATION row makes the whole file fail whenever the hyphen
test is reached, which for the entry normalizers requires at least one
matching hour column (the exit deriver tests before its hour loop), and a
failed file contributes nothing to the combine step. -/
theorem claim_C10 :
    (∀ (m : List (String × String)) (cols : List String)
        (pre post : List PairRow) (row : PairRow), row.station = none →
        pairRecsOf m ⟨cols, pre ++ row :: post⟩ =
          pairRecsOf m ⟨cols, pre ++ post⟩) ∧
      (∀ (m : List (String × String)) (t : HTable) (row : HRow),
        row ∈ t.rows → row.station = none →
        (∃ c ∈ hourColsV1 t.cols, (searchHourV1 c.data).isSome) →
        process_station_hourly_data_v1 m t = .error ()) ∧
      (∀ (m : List (String × String)) (wb : List Sheet) (sh : Sheet)
        (row : HRow), sh ∈ wb → isEntrySheet sh = true → row ∈ sh.rows →
        row.station = none → hourColsV2 sh.cols ≠ [] →
        process_station_hourly_data_v2 m wb = .error ()) ∧
      (∀ (m : List (String × String)) (wb : List Sheet) (sh : Sheet)
        (row : HRow), sh ∈ wb → isExitSheet sh = true → row ∈ sh.rows →
        row.station = none →
        process_station_hourly_exits_v2 m wb = .error ()) ∧
      (∀ e : Except Unit (List SRecord), e.isOk = false → fileContrib e = []) := by
  refine ⟨?_, ?_, ?_, ?_, ?_⟩
  · intro m cols pre post row hst
    exact pairRecsOf_skip hst
  · intro m t row hrow hst hex
    exact exceptConcat_error_of_mem hrow (entryRowV1_error hst hex)
  · intro m wb sh row hsh hentry hrow hst hne
    exact exceptConcat_error_of_mem (List.mem_filter.mpr ⟨hsh, hentry⟩)
      (exceptConcat_error_of_mem hrow (entryRowV2_error hst hne))
  · intro m wb sh row hsh hexit hrow hst
    exact exceptConcat_error_of_mem (List.mem_filter.mpr ⟨hsh, hexit⟩)
      (exceptConcat_error_of_mem hrow (exitRowV2_error hst))
  · intro e he
    rcases e with e2 | l2
    · rfl
    · exact Bool.noConfusion he

/-- Witness for C10 at concrete NaN-STATION inputs: the three normalizers
fail the file, the failed file contributes nothing, and the pair
normalizer just drops the row. -/
theorem claim_C10_witness :
    pairRecsOf [] ⟨["BUSINESS DATE", "STATION"], [] ++ rowPairNaN :: []⟩ =
        pairRecsOf [] ⟨["BUSINESS DATE", "STATION"], [] ++ []⟩ ∧
      process_station_hourly_data_v1 [] tblNaNStation = .error () ∧
      process_station_hourly_data_v2 [] wbEntryNaN = .error () ∧
      process_station_hourly_exits_v2 [] wbExitNaN = .error () ∧
      fileContrib (.error () : Except Unit (List SRecord)) = [] :=
  ⟨claim_C10.1 [] ["BUSINESS DATE", "STATION"] [] [] rowPairNaN rfl,
   claim_C10.2.1 [] tblNaNStation rowNaN (List.mem_cons_self rowNaN [])
     rfl ⟨"00:00 Hrs To 01:00 Hrs", by decide, by decide⟩,
   claim_C10.2.2.1 [] wbEntryNaN shEntryNaN rowNaN
     (List.mem_cons_self shEntryNaN []) (by decide)
     (List.mem_cons_self rowNaN []) rfl (by decide),
   claim_C10.2.2.2.1 [] wbExitNaN shExitNaN rowNaN
     (List.mem_cons_self shExitNaN []) (by decide)
     (List.mem_cons_self rowNaN []) rfl,
   claim_C10.2.2.2.2 (.error ()) rfl⟩

end BMRCL
